import Mathlib

/-!
Verification of the ZohoBooks extraction engine (`tap_zohobooks`):
a shallow embedding of `client.py` and the enrichment logic of
`streams.py`, with theorems settling the specification claims.
-/

namespace TapZohoBooks

/-! ## JSON value model (decoded response bodies, `response.json()`) -/

inductive Json where
  | null
  | bool (b : Bool)
  | num (n : Int)
  | str (s : String)
  | arr (elems : List Json)
  | obj (fields : List (String × Json))
deriving Repr, Inhabited

mutual

def Json.decEq : (a b : Json) → Decidable (a = b)
  | .null, .null => .isTrue rfl
  | .null, .bool _ => .isFalse (fun h => Json.noConfusion h)
  | .null, .num _ => .isFalse (fun h => Json.noConfusion h)
  | .null, .str _ => .isFalse (fun h => Json.noConfusion h)
  | .null, .arr _ => .isFalse (fun h => Json.noConfusion h)
  | .null, .obj _ => .isFalse (fun h => Json.noConfusion h)
  | .bool _, .null => .isFalse (fun h => Json.noConfusion h)
  | .bool a, .bool b =>
    if h : a = b then .isTrue (by rw [h]) else .isFalse (fun hh => by cases hh; exact h rfl)
  | .bool _, .num _ => .isFalse (fun h => Json.noConfusion h)
  | .bool _, .str _ => .isFalse (fun h => Json.noConfusion h)
  | .bool _, .arr _ => .isFalse (fun h => Json.noConfusion h)
  | .bool _, .obj _ => .isFalse (fun h => Json.noConfusion h)
  | .num _, .null => .isFalse (fun h => Json.noConfusion h)
  | .num _, .bool _ => .isFalse (fun h => Json.noConfusion h)
  | .num a, .num b =>
    if h : a = b then .isTrue (by rw [h]) else .isFalse (fun hh => by cases hh; exact h rfl)
  | .num _, .str _ => .isFalse (fun h => Json.noConfusion h)
  | .num _, .arr _ => .isFalse (fun h => Json.noConfusion h)
  | .num _, .obj _ => .isFalse (fun h => Json.noConfusion h)
  | .str _, .null => .isFalse (fun h => Json.noConfusion h)
  | .str _, .bool _ => .isFalse (fun h => Json.noConfusion h)
  | .str _, .num _ => .isFalse (fun h => Json.noConfusion h)
  | .str a, .str b =>
    if h : a = b then .isTrue (by rw [h]) else .isFalse (fun hh => by cases hh; exact h rfl)
  | .str _, .arr _ => .isFalse (fun h => Json.noConfusion h)
  | .str _, .obj _ => .isFalse (fun h => Json.noConfusion h)
  | .arr _, .null => .isFalse (fun h => Json.noConfusion h)
  | .arr _, .bool _ => .isFalse (fun h => Json.noConfusion h)
  | .arr _, .num _ => .isFalse (fun h => Json.noConfusion h)
  | .arr _, .str _ => .isFalse (fun h => Json.noConfusion h)
  | .arr xs, .arr ys =>
    match Json.decEqList xs ys with
    | .isTrue h => .isTrue (by rw [h])
    | .isFalse h => .isFalse (fun hh => by cases hh; exact h rfl)
  | .arr _, .obj _ => .isFalse (fun h => Json.noConfusion h)
  | .obj _, .null => .isFalse (fun h => Json.noConfusion h)
  | .obj _, .bool _ => .isFalse (fun h => Json.noConfusion h)
  | .obj _, .num _ => .isFalse (fun h => Json.noConfusion h)
  | .obj _, .str _ => .isFalse (fun h => Json.noConfusion h)
  | .obj _, .arr _ => .isFalse (fun h => Json.noConfusion h)
  | .obj fs, .obj gs =>
    match Json.decEqFields fs gs with
    | .isTrue h => .isTrue (by rw [h])
    | .isFalse h => .isFalse (fun hh => by cases hh; exact h rfl)

def Json.decEqList : (a b : List Json) → Decidable (a = b)
  | [], [] => .isTrue rfl
  | [], _ :: _ => .isFalse (fun h => List.noConfusion h)
  | _ :: _, [] => .isFalse (fun h => List.noConfusion h)
  | x :: xs, y :: ys =>
    match Json.decEq x y with
    | .isFalse h => .isFalse (fun hh => by cases hh; exact h rfl)
    | .isTrue h1 =>
      match Json.decEqList xs ys with
      | .isTrue h2 => .isTrue (by rw [h1, h2])
      | .isFalse h2 => .isFalse (fun hh => by cases hh; exact h2 rfl)

def Json.decEqFields : (a b : List (String × Json)) → Decidable (a = b)
  | [], [] => .isTrue rfl
  | [], _ :: _ => .isFalse (fun h => List.noConfusion h)
  | _ :: _, [] => .isFalse (fun h => List.noConfusion h)
  | (k1, v1) :: xs, (k2, v2) :: ys =>
    if hk : k1 = k2 then
      match Json.decEq v1 v2 with
      | .isFalse h => .isFalse (fun hh => by cases hh; exact h rfl)
      | .isTrue h1 =>
        match Json.decEqFields xs ys with
        | .isTrue h2 => .isTrue (by rw [hk, h1, h2])
        | .isFalse h2 => .isFalse (fun hh => by cases hh; exact h2 rfl)
    else .isFalse (fun hh => by cases hh; exact hk rfl)

end

instance : DecidableEq Json := Json.decEq

/-- Python truthiness of a decoded JSON value (`if value:`). -/
def truthy : Json → Bool
  | .null => false
  | .bool b => b
  | .num n => n != 0
  | .str s => s != ""
  | .arr xs => !xs.isEmpty
  | .obj fs => !fs.isEmpty

/-- First-match association-list lookup: Python `dict` lookup for a
dict represented as its insertion-ordered key/value list. -/
def alookup {K V : Type} [DecidableEq K] : List (K × V) → K → Option V
  | [], _ => none
  | (k2, v) :: rest, k => if k2 = k then some v else alookup rest k

/-- Python `k in d`. -/
def hasKey {K V : Type} [DecidableEq K] (m : List (K × V)) (k : K) : Bool :=
  m.any (fun p => p.1 = k)

/-- Python `d[k] = v`: overwrite in place if the key exists (position kept),
otherwise append at the end. Shared by `dict` and `OrderedDict`. -/
def dictSet {K V : Type} [DecidableEq K] (m : List (K × V)) (k : K) (v : V) :
    List (K × V) :=
  if hasKey m k then m.map (fun p => if p.1 = k then (k, v) else p)
  else m ++ [(k, v)]

/-! ## Paginator (`ZohoBooksPaginator`, client.py lines 21-30)

`response.json().get("page_context", {})` raises `AttributeError` when the
decoded body is not a dict; this and the `+ 1` on a non-numeric `page`
value are modelled through `Except Unit`. -/

/-- Python `j.get(k, d)` on a decoded JSON value: error when `j` is not
a dict (AttributeError). -/
def jsonGetD (j : Json) (k : String) (d : Json) : Except Unit Json :=
  match j with
  | .obj fs => .ok ((alookup fs k).getD d)
  | _ => .error ()

/-- `ZohoBooksPaginator.has_more`: the raw value of
`response.json().get("page_context", {}).get("has_more_page", False)`. -/
def has_more (body : Json) : Except Unit Json := do
  let pc ← jsonGetD body "page_context" (.obj [])
  jsonGetD pc "has_more_page" (.bool false)

/-- `ZohoBooksPaginator.get_next`: when `has_more` is truthy, return
`page_context.page` (default 1) plus one; else terminate with `none`.
A Python `bool` page participates in `+ 1` as 0/1. -/
def get_next (body : Json) : Except Unit (Option Int) := do
  let hm ← has_more body
  if truthy hm then
    let pc ← jsonGetD body "page_context" (.obj [])
    let pg ← jsonGetD pc "page" (.num 1)
    match pg with
    | .num n => pure (some (n + 1))
    | .bool b => pure (some ((if b then (1 : Int) else 0) + 1))
    | _ => .error ()
  else
    pure none

/-! ## Chunking (`ZohoBooksStream._divide_chunks`, client.py lines 257-259)

`for i in range(0, len(list), limit): yield list[i : i + limit]`,
written with explicit fuel (the list length bounds the number of chunks
whenever `1 ≤ limit`; Python raises `ValueError` for step 0). -/

def chunksGo {α : Type} : Nat → List α → Nat → List (List α)
  | 0, _, _ => []
  | _, [], _ => []
  | fuel + 1, x :: xs, limit =>
      (x :: xs).take limit :: chunksGo fuel ((x :: xs).drop limit) limit

def _divide_chunks {α : Type} (l : List α) (limit : Nat := 100) : List (List α) :=
  chunksGo l.length l limit

/-! ## Detail-enrichment merge (streams.py lines 356-364 / 1288-1296)

`for key in [k for k in detail.keys() if k not in record]: record[key] = detail[key]`:
the missing-key list is computed against the pristine record, then each
key is assigned in order. -/

abbrev Record := List (String × Json)

/-- One assignment `record[key] = detail[key]` of the enrichment loop. -/
def enrichStep (detail : Record) (acc : Record) (k : String) : Record :=
  match alookup detail k with
  | some v => dictSet acc k v
  | none => acc

def enrich (record detail : Record) : Record :=
  ((detail.map Prod.fst).filter (fun k => ! hasKey record k)).foldl
    (enrichStep detail) record

/-! ## JSON text parsing (`json.loads`, used by `is_valid_json` and
`parse_response`)

A recursive-descent parser over the character list, with fuel. Numbers
keep only an integer magnitude (fractions and exponents are consumed and
validated but not represented; the engine only ever reads integer `page`
values), string escapes are kept verbatim, and UTC-offset-style detail
beyond what the engine touches is irrelevant here: only syntactic
validity and the decoded shape of envelope fields matter. -/

def isWsChar (c : Char) : Bool := c = ' ' || c = '\t' || c = '\n' || c = '\r'

def skipWs : List Char → List Char
  | [] => []
  | c :: cs => if isWsChar c then skipWs cs else c :: cs

def digitVal (c : Char) : Nat := c.toNat - 48

def takeDigits : List Char → List Char × List Char
  | [] => ([], [])
  | c :: cs =>
    if c.isDigit then
      let (ds, rest) := takeDigits cs
      (c :: ds, rest)
    else ([], c :: cs)

def digitsVal (ds : List Char) : Nat := ds.foldl (fun a c => a * 10 + digitVal c) 0

def parseStringBody : List Char → List Char → Option (String × List Char)
  | _, [] => none
  | acc, '"' :: cs => some (String.mk acc.reverse, cs)
  | acc, '\\' :: c :: cs => parseStringBody (c :: '\\' :: acc) cs
  | _, ['\\'] => none
  | acc, c :: cs => parseStringBody (c :: acc) cs

def parseFracPart : List Char → Option (List Char)
  | '.' :: r =>
    match takeDigits r with
    | ([], _) => none
    | (_, rest) => some rest
  | cs => some cs

def parseExpPart : List Char → Option (List Char)
  | [] => some []
  | c :: r =>
    if c = 'e' ∨ c = 'E' then
      let r2 := match r with
        | s :: r' => if s = '+' ∨ s = '-' then r' else s :: r'
        | [] => []
      match takeDigits r2 with
      | ([], _) => none
      | (_, rest) => some rest
    else some (c :: r)

def parseNumber (cs : List Char) : Option (Json × List Char) :=
  let (neg, cs1) := match cs with
    | '-' :: rest => (true, rest)
    | _ => (false, cs)
  match takeDigits cs1 with
  | ([], _) => none
  | (ds, rest) =>
    match parseFracPart rest with
    | none => none
    | some rest2 =>
      match parseExpPart rest2 with
      | none => none
      | some rest3 =>
        let n : Int := Int.ofNat (digitsVal ds)
        some (Json.num (if neg then -n else n), rest3)

mutual

def parseValue : Nat → List Char → Option (Json × List Char)
  | 0, _ => none
  | fuel + 1, cs =>
    match skipWs cs with
    | 'n' :: 'u' :: 'l' :: 'l' :: rest => some (.null, rest)
    | 't' :: 'r' :: 'u' :: 'e' :: rest => some (.bool true, rest)
    | 'f' :: 'a' :: 'l' :: 's' :: 'e' :: rest => some (.bool false, rest)
    | '"' :: rest =>
      match parseStringBody [] rest with
      | some (s, r) => some (.str s, r)
      | none => none
    | '[' :: rest =>
      (match skipWs rest with
       | ']' :: r => some (.arr [], r)
       | r =>
         match parseElems fuel r with
         | some (xs, r2) => some (.arr xs, r2)
         | none => none)
    | '{' :: rest =>
      (match skipWs rest with
       | '}' :: r => some (.obj [], r)
       | r =>
         match parseMembers fuel r with
         | some (fs, r2) => some (.obj fs, r2)
         | none => none)
    | c :: rest => if c = '-' ∨ c.isDigit then parseNumber (c :: rest) else none
    | [] => none

def parseElems : Nat → List Char → Option (List Json × List Char)
  | 0, _ => none
  | fuel + 1, cs =>
    match parseValue fuel cs with
    | none => none
    | some (v, rest) =>
      match skipWs rest with
      | ',' :: r =>
        (match parseElems fuel r with
         | some (xs, r2) => some (v :: xs, r2)
         | none => none)
      | ']' :: r => some ([v], r)
      | _ => none

def parseMembers : Nat → List Char → Option (List (String × Json) × List Char)
  | 0, _ => none
  | fuel + 1, cs =>
    match skipWs cs with
    | '"' :: r =>
      (match parseStringBody [] r with
       | none => none
       | some (k, r1) =>
         match skipWs r1 with
         | ':' :: r2 =>
           (match parseValue fuel r2 with
            | none => none
            | some (v, r3) =>
              match skipWs r3 with
              | ',' :: r4 =>
                (match parseMembers fuel r4 with
                 | some (fs, r5) => some ((k, v) :: fs, r5)
                 | none => none)
              | '}' :: r4 => some ([(k, v)], r4)
              | _ => none)
         | _ => none)
    | _ => none

end

/-- `json.loads`: `none` is a raised decoding error. The fuel
`2 * length + 2` dominates the recursion depth (each two fuel steps
consume at least one input character). -/
def json_loads (s : String) : Option Json :=
  let cs := s.data
  match parseValue (2 * cs.length + 2) cs with
  | some (j, rest) => if skipWs rest = [] then some j else none
  | none => none

/-- `ZohoBooksStream.is_valid_json` (client.py lines 214-219). -/
def is_valid_json (s : String) : Bool := (json_loads s).isSome

/-! ## Response validation (`ZohoBooksStream.validate_response`,
client.py lines 221-253) -/

inductive Verdict where
  | success
  | retriable
  | fatal
deriving Repr, DecidableEq

/-- What one call of `validate_response` does, beyond raising:
whether the quota branch slept until the next day, and whether the
fixed per-request pacing delay for the four named streams ran. -/
structure ValidateResult where
  sleptUntilNextDay : Bool
  pacedOneSecond : Bool
  verdict : Verdict
deriving Repr, DecidableEq

def pacedStreamNames : List String :=
  ["purchase_orders_details", "sales_orders_details", "item_details", "journals"]

/-- `validate_response`: the `X-Rate-Limit-Remaining` header is modelled
already `int`-converted (`none` = header absent). The status/body
classification mirrors the `if`/`elif` chain verbatim. -/
def validate_response (extraRetryStatuses : List Nat) (name : String)
    (remaining : Option Int) (status : Nat) (body : String) : ValidateResult :=
  { sleptUntilNextDay :=
      match remaining with
      | some r => decide (r ≤ 0)
      | none => false
    pacedOneSecond := decide (name ∈ pacedStreamNames)
    verdict :=
      if status ∈ extraRetryStatuses ∨ (500 ≤ status ∧ status < 600) ∨ status = 400 then
        .retriable
      else if 400 < status ∧ status < 500 then
        .fatal
      else if status = 200 ∧ ¬ is_valid_json body then
        .retriable
      else
        .success }

/-- `ZohoBooksStream.sleep_until_next_day` (client.py lines 199-212):
`(next_day - now).total_seconds() + 1`, in microseconds, for a `now`
at time-of-day `todMicros`. -/
def todMicros (hour minute second microsecond : Nat) : Nat :=
  ((hour * 60 + minute) * 60 + second) * 1000000 + microsecond

def sleep_until_next_day_micros (tod : Nat) : Int :=
  ((86400000000 : Int) - tod) + 1000000

/-! ## Rate-limit alert (`ZohoBooksStream._request`, client.py lines 45-64) -/

/-- One `_request` call's alert logic: given both rate-limit headers
(already `int`-converted; `none` = absent or empty) and the current
`rate_limit_alert` flag, return whether the warning fired and the new
flag. -/
def requestAlertStep (alerted : Bool) (h : Option Int × Option Int) : Bool × Bool :=
  match h.1, h.2 with
  | some l, some r =>
    if l - r < 500 ∧ ¬ alerted = true then (true, true) else (false, alerted)
  | _, _ => (false, alerted)

/-- The alert condition of one response. -/
def alertCond (h : Option Int × Option Int) : Bool :=
  match h.1, h.2 with
  | some l, some r => decide (l - r < 500)
  | _, _ => false

/-- The sequence of warning events over a run of responses. -/
def warningsFrom (alerted : Bool) : List (Option Int × Option Int) → List Bool
  | [] => []
  | h :: t =>
    let s := requestAlertStep alerted h
    s.1 :: warningsFrom s.2 t

/-- The `rate_limit_alert` flag after a run of responses. -/
def alertedAfter (alerted : Bool) : List (Option Int × Option Int) → Bool
  | [] => alerted
  | h :: t => alertedAfter (requestAlertStep alerted h).2 t

/-! ## Datetimes (`ZohoBooksStream._infer_date`, client.py lines 130-145)

`datetime.strptime` against the six layouts, in order. The field parsers
follow CPython's `_strptime` patterns (`%Y` exactly four digits; `%m` =
`1[0-2]|0[1-9]|[1-9]`; `%d` = `3[01]|[12]\d|0[1-9]|[1-9]`; `%H` =
`2[0-3]|[0-1]\d|\d`; `%M` = `[0-5]\d|\d`; `%S` also admits 60/61, which
the datetime constructor then rejects; `%f` = one to six digits
right-padded; `%z` = sign, two hour digits, optional colon, minutes,
optional seconds, or a literal `Z`; the format is compiled
case-insensitively, so the literal `T` also matches `t`). Fractional
offset seconds are not modelled (no engine path produces them). The
whole input must be consumed. -/

structure PyDateTime where
  year : Nat
  month : Nat
  day : Nat
  hour : Nat := 0
  minute : Nat := 0
  second : Nat := 0
  microsecond : Nat := 0
  utcoffsetSeconds : Option Int := none
deriving Repr, DecidableEq, Inhabited

def isLeapYear (y : Nat) : Bool := y % 4 = 0 && (y % 100 != 0 || y % 400 = 0)

/-- `calendar.monthrange(y, m).1` (Python raises for a month outside
1..12; theorems that use this carry a month-validity hypothesis). -/
def daysInMonth (y m : Nat) : Nat :=
  if m = 2 then (if isLeapYear y then 29 else 28)
  else if m = 4 ∨ m = 6 ∨ m = 9 ∨ m = 11 then 30
  else 31

/-- The `timezone` constructor's strict 24-hour bound. -/
def offsetInRange : Option Int → Bool
  | some o => decide (-86400 < o ∧ o < 86400)
  | none => true

/-- The `datetime` constructor's range validation. -/
def mkDateTime (y mo d h mi s us : Nat) (off : Option Int) : Option PyDateTime :=
  if 1 ≤ y ∧ y ≤ 9999 ∧ 1 ≤ mo ∧ mo ≤ 12 ∧ 1 ≤ d ∧ d ≤ daysInMonth y mo ∧
     h ≤ 23 ∧ mi ≤ 59 ∧ s ≤ 59 ∧ us ≤ 999999 ∧ offsetInRange off = true
  then some ⟨y, mo, d, h, mi, s, us, off⟩ else none

def parseY4 : List Char → Option (Nat × List Char)
  | a :: b :: c :: d :: rest =>
    if a.isDigit && b.isDigit && c.isDigit && d.isDigit then
      some (digitVal a * 1000 + digitVal b * 100 + digitVal c * 10 + digitVal d, rest)
    else none
  | _ => none

def parseMon : List Char → Option (Nat × List Char)
  | '1' :: c :: rest =>
    if '0' ≤ c ∧ c ≤ '2' then some (10 + digitVal c, rest) else some (1, c :: rest)
  | '0' :: c :: rest =>
    if '1' ≤ c ∧ c ≤ '9' then some (digitVal c, rest) else none
  | c :: rest => if '1' ≤ c ∧ c ≤ '9' then some (digitVal c, rest) else none
  | [] => none

def parseDay2 : List Char → Option (Nat × List Char)
  | '3' :: c :: rest =>
    if c = '0' ∨ c = '1' then some (30 + digitVal c, rest) else some (3, c :: rest)
  | '1' :: c :: rest =>
    if c.isDigit then some (10 + digitVal c, rest) else some (1, c :: rest)
  | '2' :: c :: rest =>
    if c.isDigit then some (20 + digitVal c, rest) else some (2, c :: rest)
  | '0' :: c :: rest =>
    if '1' ≤ c ∧ c ≤ '9' then some (digitVal c, rest) else none
  | c :: rest => if '1' ≤ c ∧ c ≤ '9' then some (digitVal c, rest) else none
  | [] => none

def parseHour2 : List Char → Option (Nat × List Char)
  | '2' :: c :: rest =>
    if '0' ≤ c ∧ c ≤ '3' then some (20 + digitVal c, rest) else some (2, c :: rest)
  | '0' :: c :: rest =>
    if c.isDigit then some (digitVal c, rest) else some (0, c :: rest)
  | '1' :: c :: rest =>
    if c.isDigit then some (10 + digitVal c, rest) else some (1, c :: rest)
  | c :: rest => if c.isDigit then some (digitVal c, rest) else none
  | [] => none

def parseMin2 : List Char → Option (Nat × List Char)
  | c1 :: c2 :: rest =>
    if ('0' ≤ c1 ∧ c1 ≤ '5') ∧ c2.isDigit then
      some (digitVal c1 * 10 + digitVal c2, rest)
    else if c1.isDigit then some (digitVal c1, c2 :: rest)
    else none
  | [c1] => if c1.isDigit then some (digitVal c1, []) else none
  | [] => none

def parseSec2 : List Char → Option (Nat × List Char)
  | '6' :: c :: rest =>
    if c = '0' ∨ c = '1' then some (60 + digitVal c, rest) else some (6, c :: rest)
  | c1 :: c2 :: rest =>
    if ('0' ≤ c1 ∧ c1 ≤ '5') ∧ c2.isDigit then
      some (digitVal c1 * 10 + digitVal c2, rest)
    else if c1.isDigit then some (digitVal c1, c2 :: rest)
    else none
  | [c1] => if c1.isDigit then some (digitVal c1, []) else none
  | [] => none

def parseMicro (cs : List Char) : Option (Nat × List Char) :=
  let ds := (cs.takeWhile Char.isDigit).take 6
  if ds.isEmpty then none
  else some (digitsVal ds * 10 ^ (6 - ds.length), cs.drop ds.length)

def parseOffsetSeconds : List Char → Nat × List Char
  | ':' :: s1 :: s2 :: r =>
    if ('0' ≤ s1 ∧ s1 ≤ '5') ∧ s2.isDigit then (digitVal s1 * 10 + digitVal s2, r)
    else (0, ':' :: s1 :: s2 :: r)
  | s1 :: s2 :: r =>
    if ('0' ≤ s1 ∧ s1 ≤ '5') ∧ s2.isDigit then (digitVal s1 * 10 + digitVal s2, r)
    else (0, s1 :: s2 :: r)
  | cs => (0, cs)

def parseOffset : List Char → Option (Int × List Char)
  | 'Z' :: rest => some (0, rest)
  | s :: rest =>
    if s = '+' ∨ s = '-' then
      match rest with
      | h1 :: h2 :: cs =>
        if h1.isDigit ∧ h2.isDigit then
          let hh := digitVal h1 * 10 + digitVal h2
          let cs1 := match cs with
            | ':' :: r => r
            | r => r
          match cs1 with
          | m1 :: m2 :: cs2 =>
            if ('0' ≤ m1 ∧ m1 ≤ '5') ∧ m2.isDigit then
              let mm := digitVal m1 * 10 + digitVal m2
              let sr := parseOffsetSeconds cs2
              let total : Int := (hh * 3600 + mm * 60 + sr.1 : Nat)
              some (if s = '-' then -total else total, sr.2)
            else none
          | _ => none
        else none
      | _ => none
    else none
  | [] => none

def litChar (c : Char) : List Char → Option (List Char)
  | x :: rest => if x = c then some rest else none
  | [] => none

def litT : List Char → Option (List Char)
  | x :: rest => if x = 'T' ∨ x = 't' then some rest else none
  | [] => none

def parseYMDPart (cs : List Char) : Option ((Nat × Nat × Nat) × List Char) := do
  let (y, r1) ← parseY4 cs
  let r2 ← litChar '-' r1
  let (mo, r3) ← parseMon r2
  let r4 ← litChar '-' r3
  let (d, r5) ← parseDay2 r4
  some ((y, mo, d), r5)

def parseTHMPart (cs : List Char) : Option ((Nat × Nat) × List Char) := do
  let r1 ← litT cs
  let (h, r2) ← parseHour2 r1
  let r3 ← litChar ':' r2
  let (mi, r4) ← parseMin2 r3
  some ((h, mi), r4)

/-- Layout `%Y-%m-%dT%H:%M:%S.%f%z`. -/
def strptimeFmt1 (s : String) : Option PyDateTime := do
  let ((y, mo, d), r) ← parseYMDPart s.data
  let ((h, mi), r2) ← parseTHMPart r
  let r3 ← litChar ':' r2
  let (sec, r4) ← parseSec2 r3
  let r5 ← litChar '.' r4
  let (us, r6) ← parseMicro r5
  let (off, r7) ← parseOffset r6
  if r7 = [] then mkDateTime y mo d h mi sec us (some off) else none

/-- Layout `%Y-%m-%dT%H:%M:%S.%f`. -/
def strptimeFmt2 (s : String) : Option PyDateTime := do
  let ((y, mo, d), r) ← parseYMDPart s.data
  let ((h, mi), r2) ← parseTHMPart r
  let r3 ← litChar ':' r2
  let (sec, r4) ← parseSec2 r3
  let r5 ← litChar '.' r4
  let (us, r6) ← parseMicro r5
  if r6 = [] then mkDateTime y mo d h mi sec us none else none

/-- Layout `%Y-%m-%dT%H:%M:%S%z`. -/
def strptimeFmt3 (s : String) : Option PyDateTime := do
  let ((y, mo, d), r) ← parseYMDPart s.data
  let ((h, mi), r2) ← parseTHMPart r
  let r3 ← litChar ':' r2
  let (sec, r4) ← parseSec2 r3
  let (off, r5) ← parseOffset r4
  if r5 = [] then mkDateTime y mo d h mi sec 0 (some off) else none

/-- Layout `%Y-%m-%dT%H:%M:%S`. -/
def strptimeFmt4 (s : String) : Option PyDateTime := do
  let ((y, mo, d), r) ← parseYMDPart s.data
  let ((h, mi), r2) ← parseTHMPart r
  let r3 ← litChar ':' r2
  let (sec, r4) ← parseSec2 r3
  if r4 = [] then mkDateTime y mo d h mi sec 0 none else none

/-- Layout `%Y-%m-%dT%H:%M%z`. -/
def strptimeFmt5 (s : String) : Option PyDateTime := do
  let ((y, mo, d), r) ← parseYMDPart s.data
  let ((h, mi), r2) ← parseTHMPart r
  let (off, r3) ← parseOffset r2
  if r3 = [] then mkDateTime y mo d h mi 0 0 (some off) else none

/-- Layout `%Y-%m-%d`. -/
def strptimeFmt6 (s : String) : Option PyDateTime := do
  let ((y, mo, d), r) ← parseYMDPart s.data
  if r = [] then mkDateTime y mo d 0 0 0 0 none else none

/-- `_infer_date`: first matching layout wins; `none` is the raised
`ValueError("No valid date format found")`. -/
def _infer_date (s : String) : Option PyDateTime :=
  (((((strptimeFmt1 s).orElse fun _ => strptimeFmt2 s).orElse
      fun _ => strptimeFmt3 s).orElse
      fun _ => strptimeFmt4 s).orElse
      fun _ => strptimeFmt5 s).orElse
      fun _ => strptimeFmt6 s

/-! ## Datetime arithmetic and rendering (client.py lines 159-170) -/

/-- `start_date + timedelta(seconds=1)`: carries through the naive
fields; the tz offset and microseconds are unchanged. Rolling past
`datetime.max` (year 9999) raises `OverflowError`, modelled as
`none`. -/
def addOneSecond (dt : PyDateTime) : Option PyDateTime :=
  if dt.second + 1 ≤ 59 then some { dt with second := dt.second + 1 }
  else if dt.minute + 1 ≤ 59 then some { dt with second := 0, minute := dt.minute + 1 }
  else if dt.hour + 1 ≤ 23 then
    some { dt with second := 0, minute := 0, hour := dt.hour + 1 }
  else if dt.day + 1 ≤ daysInMonth dt.year dt.month then
    some { dt with second := 0, minute := 0, hour := 0, day := dt.day + 1 }
  else if dt.month + 1 ≤ 12 then
    some { dt with second := 0, minute := 0, hour := 0, day := 1, month := dt.month + 1 }
  else if dt.year + 1 ≤ 9999 then
    some { dt with
      second := 0
      minute := 0
      hour := 0
      day := 1
      month := 1
      year := dt.year + 1 }
  else none

def padZeros (w n : Nat) : String :=
  let s := toString n
  String.mk (List.replicate (w - s.length) '0') ++ s

/-- `datetime.isoformat` rendering of a fixed UTC offset
(`±HH:MM`, plus `:SS` when the offset has whole seconds). -/
def offsetIso (off : Int) : String :=
  let sign := if off < 0 then "-" else "+"
  let a := off.natAbs
  let hh := a / 3600
  let mm := (a % 3600) / 60
  let ss := a % 60
  sign ++ padZeros 2 hh ++ ":" ++ padZeros 2 mm ++
    (if ss ≠ 0 then ":" ++ padZeros 2 ss else "")

/-- `datetime.isoformat()` with the default `timespec`: the fractional
part appears exactly when `microsecond` is nonzero. -/
def isoformat (dt : PyDateTime) : String :=
  padZeros 4 dt.year ++ "-" ++ padZeros 2 dt.month ++ "-" ++ padZeros 2 dt.day ++ "T" ++
  padZeros 2 dt.hour ++ ":" ++ padZeros 2 dt.minute ++ ":" ++ padZeros 2 dt.second ++
  (if dt.microsecond ≠ 0 then "." ++ padZeros 6 dt.microsecond else "") ++
  (match dt.utcoffsetSeconds with
   | some off => offsetIso off
   | none => "")

/-- `strftime("%Y-%m-%d")`. -/
def strftimeYMD (dt : PyDateTime) : String :=
  padZeros 4 dt.year ++ "-" ++ padZeros 2 dt.month ++ "-" ++ padZeros 2 dt.day

/-! ## The final-colon removal (client.py lines 168-169)

`splited = s.split(":"); s = ":".join(splited[:-1]) + splited[-1]`,
mirrored at the character-list level. -/

/-- Python `s.split(":")`. -/
def splitOnColon : List Char → List (List Char)
  | [] => [[]]
  | c :: r =>
    if c = ':' then [] :: splitOnColon r
    else
      match splitOnColon r with
      | g :: gs => (c :: g) :: gs
      | [] => [[c]]

/-- Python `":".join(parts)`. -/
def joinColon : List (List Char) → List Char
  | [] => []
  | [g] => g
  | g :: gs => g ++ ':' :: joinColon gs

/-- Python `parts[:-1]` (for the nonempty lists `split` produces). -/
def frontParts : List (List Char) → List (List Char)
  | [] => []
  | [_] => []
  | g :: gs => g :: frontParts gs

/-- Python `parts[-1]` (for the nonempty lists `split` produces). -/
def lastPart : List (List Char) → List Char
  | [] => []
  | [g] => g
  | _ :: gs => lastPart gs

/-- Lines 168-169 verbatim. -/
def dropLastColonJoin (s : String) : String :=
  String.mk (joinColon (frontParts (splitOnColon s.data)) ++ lastPart (splitOnColon s.data))

/-- Stated from the spec's words, for comparison with the code path:
remove the final colon of the string (the string is unchanged when it
has no colon). -/
def removeLastColon : List Char → List Char
  | [] => []
  | c :: rest =>
    if ':' ∈ rest then c :: removeLastColon rest
    else if c = ':' then rest
    else c :: rest

def specRemoveFinalColon (s : String) : String := String.mk (removeLastColon s.data)

/-! ## URL parameters (`ZohoBooksStream.get_url_params`,
client.py lines 147-197, with `get_starting_time` lines 93-101) -/

/-- A query-parameter value as Python builds it (`None` included:
`params["organization_id"] = context.get("organization_id")` stores
`None` when the context lacks the key). -/
inductive PVal where
  | nullv
  | str (s : String)
  | int (n : Int)
  | bool (b : Bool)
deriving Repr, DecidableEq, Inhabited

structure StreamConfig where
  start_date : Option String := none
  reports_start_date : Option String := none
deriving Repr, DecidableEq

/-- Python `a or b` on optional strings (`None` and `""` are falsy). -/
def pyOrStr (a b : Option String) : Option String :=
  match a with
  | some s => if s ≠ "" then some s else b
  | none => b

/-- `get_starting_time`: the stored bookmark
(`get_starting_replication_key_value`, modelled as an input) `or` the
configured `start_date` (itself `None` unless truthy). -/
def get_starting_time (bookmark : Option String) (cfg : StreamConfig) :
    Option String :=
  let start_date : Option String :=
    match cfg.start_date with
    | some s => if s ≠ "" then some s else none
    | none => none
  match bookmark with
  | some r => if r ≠ "" then some r else start_date
  | none => start_date

def reportStreamNames : List String :=
  ["profit_and_loss", "report_account_transactions",
   "profit_and_loss_cash_based", "report_account_transactions_cash_based"]

def cashBasedStreamNames : List String :=
  ["profit_and_loss_cash_based", "report_account_transactions_cash_based"]

/-- Lines 161-169: add one second (`OverflowError` at `datetime.max`
propagates), zero a positive microsecond field, render `isoformat`,
and drop the final colon via split/join. -/
def lastModifiedParam (dt : PyDateTime) : Option String :=
  match addOneSecond dt with
  | none => none
  | some dt1 =>
    let dt2 := if dt1.microsecond > 0 then { dt1 with microsecond := 0 } else dt1
    some (dropLastColonJoin (isoformat dt2))

/-- `if next_page_token: params["page"] = next_page_token` (int
truthiness: a zero token sets nothing). -/
def pageParams (next_page_token : Option Int) (base : List (String × PVal)) :
    List (String × PVal) :=
  match next_page_token with
  | some n => if n ≠ 0 then dictSet base "page" (.int n) else base
  | none => base

/-- `if context is not None: params["organization_id"] = context.get(...)`. -/
def orgParam (context : Option (List (String × PVal)))
    (base : List (String × PVal)) : List (String × PVal) :=
  match context with
  | some ctx =>
    dictSet base "organization_id" ((alookup ctx "organization_id").getD .nullv)
  | none => base

/-- `get_url_params`. Inputs a Python `None`-able context dict, the next
page token (`if next_page_token:` is int truthiness), and `today`
(= `datetime.now()` for the report window). `Except.error` is an
uncaught exception (`ValueError` from `_infer_date`, or `TypeError`
from `strptime(None, ...)` when a report stream resolves no start). -/
def get_url_params (name : String) (cfg : StreamConfig) (bookmark : Option String)
    (context : Option (List (String × PVal))) (next_page_token : Option Int)
    (today : PyDateTime) : Except Unit (List (String × PVal)) :=
  let params0 : List (String × PVal) := []
  let params1 := match context with
    | some ctx =>
      dictSet (dictSet params0 "organization_id"
          ((alookup ctx "organization_id").getD .nullv))
        "account_id" ((alookup ctx "account_id").getD .nullv)
    | none => params0
  let params2 := pageParams next_page_token params1
  let step3 : Except Unit (List (String × PVal)) :=
    match get_starting_time bookmark cfg with
    | some s =>
      match _infer_date s with
      | some dt =>
        match lastModifiedParam dt with
        | some v => .ok (dictSet params2 "last_modified_time" (.str v))
        | none => .error ()
      | none => .error ()
    | none => .ok params2
  match step3 with
  | .error e => .error e
  | .ok params3 =>
    if name ∈ reportStreamNames then
      let p2 := orgParam context (pageParams next_page_token [])
      match pyOrStr cfg.reports_start_date (get_starting_time bookmark cfg) with
      | none => .error ()
      | some s =>
        match _infer_date s with
        | none => .error ()
        | some dt =>
          let p3 := dictSet p2 "from_date" (.str (strftimeYMD dt))
          let p4 := dictSet p3 "to_date"
            (.str (strftimeYMD { today with day := daysInMonth today.year today.month }))
          if name ∈ cashBasedStreamNames then
            .ok (dictSet p4 "cash_based" (.bool true))
          else .ok p4
    else .ok params3

/-- Written from the spec's words, for comparison with
`lastModifiedParam`: the parsed datetime plus one second (when it does
not overflow `datetime.max`), sub-second precision truncated to zero,
rendered via isoformat, final colon removed. -/
def specCursorValue (dt : PyDateTime) : Option String :=
  (addOneSecond dt).map
    (fun d => specRemoveFinalColon (isoformat { d with microsecond := 0 }))

/-! ## Detail enrichment (`ItemsStream.parse_response`, streams.py
lines 317-364, and the identical `SalesOrdersStream.parse_response`,
lines 1249-1296, with key `salesorder_id`)

`records` is the already-extracted list-page record array;
`fetch chunk` is the detail-record array extracted from the one
secondary request issued for `chunk`. `OrderedDict((r.get(idKey), r))`
is `dictSet` over the `Option Json` key; `detail[idKey]` and
`record_ids[...]` raise `KeyError` (`Except.error`) when missing. -/

/-- One iteration of `for item_detail in item_details: ...`:
enrich the matching primary record in place and yield it. -/
def detailYieldStep (idKey : String)
    (st : List (Option Json × Record) × List Record) (dr : Record) :
    Except Unit (List (Option Json × Record) × List Record) :=
  match alookup dr idKey with
  | none => .error ()
  | some did =>
    match alookup st.1 (some did) with
    | none => .error ()
    | some r =>
      let r2 := enrich r dr
      .ok (dictSet st.1 (some did) r2, st.2 ++ [r2])

def runDetailBatch (idKey : String) :
    List (Option Json × Record) × List Record → List Record →
    Except Unit (List (Option Json × Record) × List Record)
  | st, [] => .ok st
  | st, dr :: drs =>
    match detailYieldStep idKey st dr with
    | .ok st2 => runDetailBatch idKey st2 drs
    | .error e => .error e

def runDetailChunks (idKey : String) (fetch : List (Option Json) → List Record) :
    List (Option Json × Record) × List Record → List (List (Option Json)) →
    Except Unit (List (Option Json × Record) × List Record)
  | st, [] => .ok st
  | st, c :: cs =>
    match runDetailBatch idKey st (fetch c) with
    | .ok st2 => runDetailChunks idKey fetch st2 cs
    | .error e => .error e

/-- The `OrderedDict((record.get(idKey), record) for record in records)`. -/
def recordIdsDict (idKey : String) (records : List Record) :
    List (Option Json × Record) :=
  records.foldl (fun m r => dictSet m (alookup r idKey) r) []

/-- The enrichment-enabled `parse_response` body after record
extraction: chunk the ordered keys by 100, fetch and process each
batch, and return the yielded sequence. -/
def parse_response_enriched (idKey : String)
    (fetch : List (Option Json) → List Record) (records : List Record) :
    Except Unit (List Record) :=
  let m := recordIdsDict idKey records
  let chunks := _divide_chunks (m.map Prod.fst) 100
  (runDetailChunks idKey fetch (m, []) chunks).map (fun st => st.2)

/-! ## `ZohoBooksStream.parse_response` (client.py lines 273-277) -/

/-- `extract_jsonpath("$[*]", input=response.json())`: the top-level
values of the decoded body. -/
def extract_records_star (j : Json) : List Json :=
  match j with
  | .obj fs => fs.map Prod.snd
  | .arr xs => xs
  | _ => []

/-- `parse_response`: skip empty 200 bodies, else decode (a decoding
failure raises) and extract. -/
def parse_response (status : Nat) (text : String) : Except Unit (List Json) :=
  if text = "" ∧ status = 200 then .ok []
  else
    match json_loads text with
    | none => .error ()
    | some j => .ok (extract_records_star j)

def MInv (idKey : String) (m : List (Option Json × Record)) : Prop :=
  ∀ kr ∈ m, alookup kr.2 idKey = kr.1

/-! ## Theorems -/

theorem alookup_append {K V : Type} [DecidableEq K] (m m' : List (K × V)) (k : K) :
    alookup (m ++ m') k = match alookup m k with
      | some v => some v
      | none => alookup m' k := by
  induction m with
  | nil => simp [alookup]
  | cons p rest ih =>
    by_cases h : p.1 = k
    · simp [alookup, h]
    · simp [alookup, h, ih]

theorem hasKey_iff_alookup_isSome {K V : Type} [DecidableEq K]
    (m : List (K × V)) (k : K) : hasKey m k = true ↔ (alookup m k).isSome := by
  induction m with
  | nil => simp [hasKey, alookup]
  | cons p rest ih =>
    by_cases h : p.1 = k
    · simp [hasKey, alookup, h]
    · simpa [hasKey, alookup, h] using ih

theorem alookup_eq_none_of_hasKey_false {K V : Type} [DecidableEq K]
    (m : List (K × V)) (k : K) (h : hasKey m k = false) : alookup m k = none := by
  rcases ho : alookup m k with _ | v
  · rfl
  · have := (hasKey_iff_alookup_isSome m k).2 (by simp [ho])
    rw [this] at h
    cases h

theorem alookup_overwrite_self {K V : Type} [DecidableEq K]
    (m : List (K × V)) (k : K) (v : V) :
    alookup (m.map (fun p => if p.1 = k then (k, v) else p)) k =
      (alookup m k).map (fun _ => v) := by
  induction m with
  | nil => simp [alookup]
  | cons p rest ih =>
    by_cases hp : p.1 = k
    · simp only [List.map_cons, if_pos hp]
      simp [alookup, hp]
    · simp only [List.map_cons, if_neg hp]
      simp [alookup, hp, ih]

theorem alookup_overwrite_ne {K V : Type} [DecidableEq K]
    (m : List (K × V)) (k k' : K) (v : V) (h : k' ≠ k) :
    alookup (m.map (fun p => if p.1 = k then (k, v) else p)) k' = alookup m k' := by
  induction m with
  | nil => simp [alookup]
  | cons p rest ih =>
    by_cases hp : p.1 = k
    · simp only [List.map_cons, if_pos hp]
      have h1 : ¬(k = k') := fun hh => h hh.symm
      have h2 : ¬(p.1 = k') := by rw [hp]; exact h1
      simp [alookup, h1, h2, ih]
    · simp only [List.map_cons, if_neg hp]
      by_cases hp' : p.1 = k'
      · simp [alookup, hp']
      · simp [alookup, hp', ih]

theorem alookup_dictSet_self {K V : Type} [DecidableEq K]
    (m : List (K × V)) (k : K) (v : V) :
    alookup (dictSet m k v) k = some v := by
  unfold dictSet
  by_cases hk : hasKey m k = true
  · rw [if_pos hk, alookup_overwrite_self]
    rcases Option.isSome_iff_exists.1 ((hasKey_iff_alookup_isSome m k).1 hk) with ⟨w, hw⟩
    simp [hw]
  · rw [if_neg hk, alookup_append,
      alookup_eq_none_of_hasKey_false m k (Bool.not_eq_true _ ▸ hk)]
    simp [alookup]

theorem alookup_dictSet_ne {K V : Type} [DecidableEq K]
    (m : List (K × V)) (k k' : K) (v : V) (h : k' ≠ k) :
    alookup (dictSet m k v) k' = alookup m k' := by
  unfold dictSet
  by_cases hk : hasKey m k = true
  · rw [if_pos hk]
    exact alookup_overwrite_ne m k k' v h
  · rw [if_neg hk, alookup_append]
    have h1 : ¬(k = k') := fun hh => h hh.symm
    rcases ho : alookup m k' with _ | w
    · simp [alookup, h1]
    · simp

theorem chunksGo_flatten {α : Type} (limit : Nat) (hl : 1 ≤ limit) :
    ∀ (fuel : Nat) (l : List α), l.length ≤ fuel →
      (chunksGo fuel l limit).flatten = l := by
  intro fuel
  induction fuel with
  | zero =>
    intro l h
    have : l = [] := List.eq_nil_of_length_eq_zero (Nat.le_zero.1 h)
    simp [this, chunksGo]
  | succ f ih =>
    intro l h
    match l with
    | [] => simp [chunksGo]
    | x :: xs =>
      have hdrop : ((x :: xs).drop limit).length ≤ f := by
        simp only [List.length_drop, List.length_cons]
        simp only [List.length_cons] at h
        omega
      simp only [chunksGo, List.flatten]
      rw [ih _ hdrop, List.take_append_drop]

theorem chunksGo_length_le {α : Type} :
    ∀ (fuel : Nat) (l : List α) (limit : Nat) (c : List α),
      c ∈ chunksGo fuel l limit → c.length ≤ limit := by
  intro fuel
  induction fuel with
  | zero => intro l limit c hc; simp [chunksGo] at hc
  | succ f ih =>
    intro l limit c hc
    match l with
    | [] => simp [chunksGo] at hc
    | x :: xs =>
      simp only [chunksGo, List.mem_cons] at hc
      rcases hc with hc | hc
      · subst hc; simpa using List.length_take_le limit (x :: xs)
      · exact ih _ _ _ hc

theorem enrich_foldl_lookup_of_not_mem (d : Record) (k : String) :
    ∀ (ks : List String) (acc : Record), (∀ k' ∈ ks, k' ≠ k) →
      alookup (ks.foldl (enrichStep d) acc) k = alookup acc k := by
  intro ks
  induction ks with
  | nil => intro acc _; rfl
  | cons k' ks ih =>
    intro acc h
    have hk' : k' ≠ k := h k' (by simp)
    have hrest : ∀ k'' ∈ ks, k'' ≠ k := fun k'' hk'' => h k'' (by simp [hk''])
    simp only [List.foldl_cons]
    rw [ih _ hrest]
    unfold enrichStep
    rcases ho : alookup d k' with _ | v
    · rfl
    · exact alookup_dictSet_ne acc k' k v (Ne.symm hk')

theorem enrich_foldl_lookup_estab (d : Record) (k : String)
    (hd : (alookup d k).isSome) :
    ∀ (ks : List String) (acc : Record),
      (k ∈ ks ∨ alookup acc k = alookup d k) →
      alookup (ks.foldl (enrichStep d) acc) k = alookup d k := by
  intro ks
  induction ks with
  | nil =>
    intro acc h
    rcases h with h | h
    · simp at h
    · simpa using h
  | cons k' ks ih =>
    intro acc h
    rcases Option.isSome_iff_exists.1 hd with ⟨v, hv⟩
    simp only [List.foldl_cons]
    by_cases hk' : k' = k
    · subst hk'
      have hstep : enrichStep d acc k' = dictSet acc k' v := by
        unfold enrichStep; rw [hv]
      rw [hstep]
      exact ih _ (Or.inr (by rw [alookup_dictSet_self, hv]))
    · rcases h with h | h
      · rcases List.mem_cons.1 h with h | h
        · exact absurd h.symm hk'
        · exact ih _ (Or.inl h)
      · refine ih _ (Or.inr ?_)
        unfold enrichStep
        rcases ho : alookup d k' with _ | w
        · exact h
        · rw [alookup_dictSet_ne acc k' k w fun hh => hk' hh.symm]
          exact h

/-- Fields already present in the primary record are never overwritten. -/
theorem enrich_lookup_of_hasKey (p d : Record) (k : String)
    (h : hasKey p k = true) : alookup (enrich p d) k = alookup p k := by
  unfold enrich
  refine enrich_foldl_lookup_of_not_mem d k _ p ?_
  intro k' hk'
  rcases List.mem_filter.1 hk' with ⟨_, hnot⟩
  intro hek
  subst hek
  simp [h] at hnot

theorem mem_keys_of_alookup_isSome {K V : Type} [DecidableEq K]
    (m : List (K × V)) (k : K) (h : (alookup m k).isSome) : k ∈ m.map Prod.fst := by
  induction m with
  | nil => simp [alookup] at h
  | cons q rest ih =>
    by_cases hq : q.1 = k
    · simp [hq.symm]
    · simp only [alookup, hq, if_false] at h
      simp [ih h]

/-- Fields absent from the primary record are copied from the detail record. -/
theorem enrich_lookup_of_not_hasKey (p d : Record) (k : String)
    (hp : hasKey p k = false) (hd : hasKey d k = true) :
    alookup (enrich p d) k = alookup d k := by
  unfold enrich
  have hdk : (alookup d k).isSome := (hasKey_iff_alookup_isSome d k).1 hd
  refine enrich_foldl_lookup_estab d k hdk _ p (Or.inl ?_)
  exact List.mem_filter.2 ⟨mem_keys_of_alookup_isSome d k hdk, by simp [hp]⟩

theorem requestAlertStep_eq (alerted : Bool) (h : Option Int × Option Int) :
    requestAlertStep alerted h = ((alertCond h && !alerted), (alerted || alertCond h)) := by
  rcases h with ⟨l, r⟩
  rcases l with _ | l <;> rcases r with _ | r <;>
    simp [requestAlertStep, alertCond] <;>
    by_cases hc : l - r < 500 <;> cases alerted <;> simp [hc]

theorem warningsFrom_true (rs : List (Option Int × Option Int)) :
    warningsFrom true rs = List.replicate rs.length false := by
  induction rs with
  | nil => rfl
  | cons h t ih =>
    simp [warningsFrom, requestAlertStep_eq, ih, List.replicate_succ]

theorem alertedAfter_true (rs : List (Option Int × Option Int)) :
    alertedAfter true rs = true := by
  induction rs with
  | nil => rfl
  | cons h t ih => simp [alertedAfter, requestAlertStep_eq, ih]

theorem warningsFrom_count_le_one (rs : List (Option Int × Option Int)) :
    (warningsFrom false rs).count true ≤ 1 := by
  induction rs with
  | nil => simp [warningsFrom]
  | cons h t ih =>
    simp only [warningsFrom, requestAlertStep_eq, Bool.not_false, Bool.and_true,
      Bool.false_or]
    rcases hc : alertCond h with _ | _
    · simpa [List.count_cons] using ih
    · simp [List.count_cons, warningsFrom_true, List.count_replicate]

theorem warningsFrom_getD (rs : List (Option Int × Option Int)) (i : Nat)
    (hi : i < rs.length) :
    (warningsFrom false rs).getD i false = true ↔
      (alertCond (rs.getD i (none, none)) = true ∧
       ∀ j, j < i → alertCond (rs.getD j (none, none)) = false) := by
  induction rs generalizing i with
  | nil => simp at hi
  | cons h t ih =>
    simp only [warningsFrom, requestAlertStep_eq, Bool.not_false, Bool.and_true,
      Bool.false_or]
    rcases i with _ | i
    · rcases hc : alertCond h with _ | _ <;>
        simp [List.getD_cons_zero, hc]
    · have hi' : i < t.length := by simpa using hi
      rcases hc : alertCond h with _ | _
      · rw [List.getD_cons_succ, List.getD_cons_succ, ih i hi']
        constructor
        · rintro ⟨h1, h2⟩
          refine ⟨h1, fun j hj => ?_⟩
          rcases j with _ | j
          · simpa [List.getD_cons_zero] using hc
          · rw [List.getD_cons_succ]
            exact h2 j (by omega)
        · rintro ⟨h1, h2⟩
          refine ⟨h1, fun j hj => ?_⟩
          have := h2 (j + 1) (by omega)
          simpa [List.getD_cons_succ] using this
      · rw [warningsFrom_true, List.getD_cons_succ]
        constructor
        · intro hfalse
          have : i < (List.replicate t.length false).length := by simpa using hi'
          rw [List.getD_eq_getElem _ _ this] at hfalse
          simp at hfalse
        · rintro ⟨h1, h2⟩
          have := h2 0 (by omega)
          rw [List.getD_cons_zero] at this
          rw [hc] at this
          cases this

theorem splitOnColon_ne_nil (cs : List Char) : splitOnColon cs ≠ [] := by
  match cs with
  | [] => simp [splitOnColon]
  | c :: r =>
    unfold splitOnColon
    by_cases hc : c = ':'
    · simp [hc]
    · simp only [hc, if_false]
      rcases h : splitOnColon r with _ | ⟨g, gs⟩ <;> simp

theorem splitOnColon_of_not_mem (cs : List Char) (h : ':' ∉ cs) :
    splitOnColon cs = [cs] := by
  induction cs with
  | nil => rfl
  | cons c r ih =>
    have hc : c ≠ ':' := fun hh => h (by simp [hh])
    have hr : ':' ∉ r := fun hh => h (by simp [hh])
    unfold splitOnColon
    simp only [hc, if_false, ih hr]

theorem splitOnColon_two_le_of_mem (cs : List Char) (h : ':' ∈ cs) :
    2 ≤ (splitOnColon cs).length := by
  induction cs with
  | nil => simp at h
  | cons c r ih =>
    unfold splitOnColon
    by_cases hc : c = ':'
    · simp only [hc, if_true, List.length_cons]
      have := splitOnColon_ne_nil r
      have : 1 ≤ (splitOnColon r).length := by
        rcases hr : splitOnColon r with _ | ⟨g, gs⟩
        · exact absurd hr this
        · simp
      omega
    · have hr : ':' ∈ r := by
        rcases List.mem_cons.1 h with h | h
        · exact absurd h.symm hc
        · exact h
      simp only [hc, if_false]
      rcases hsp : splitOnColon r with _ | ⟨g, gs⟩
      · exact absurd hsp (splitOnColon_ne_nil r)
      · have := ih hr
        rw [hsp] at this
        simpa using this

theorem joinColon_cons (g : List Char) (gs : List (List Char)) :
    joinColon (g :: gs) = g ++ (if gs = [] then [] else ':' :: joinColon gs) := by
  rcases gs with _ | ⟨g2, gs'⟩ <;> simp [joinColon]

theorem frontParts_cons_of_ne (g : List Char) (gs : List (List Char)) (h : gs ≠ []) :
    frontParts (g :: gs) = g :: frontParts gs := by
  rcases gs with _ | ⟨g2, gs'⟩
  · exact absurd rfl h
  · rfl

theorem lastPart_cons_of_ne (g : List Char) (gs : List (List Char)) (h : gs ≠ []) :
    lastPart (g :: gs) = lastPart gs := by
  rcases gs with _ | ⟨g2, gs'⟩
  · exact absurd rfl h
  · rfl

theorem splitOnColon_colon_cons (r : List Char) :
    splitOnColon (':' :: r) = [] :: splitOnColon r := by
  rw [splitOnColon]
  simp

theorem splitOnColon_cons_ne (c : Char) (r : List Char) (hc : c ≠ ':') :
    splitOnColon (c :: r) =
      match splitOnColon r with
      | g :: gs => (c :: g) :: gs
      | [] => [[c]] := by
  rw [splitOnColon]
  simp [hc]

theorem removeLastColon_cons_mem (c : Char) (r : List Char) (h : ':' ∈ r) :
    removeLastColon (c :: r) = c :: removeLastColon r := by
  rw [removeLastColon]
  simp [h]

theorem removeLastColon_colon_not_mem (r : List Char) (h : ':' ∉ r) :
    removeLastColon (':' :: r) = r := by
  rw [removeLastColon]
  simp [h]

theorem removeLastColon_cons_not_mem (c : Char) (r : List Char) (hc : c ≠ ':')
    (h : ':' ∉ r) : removeLastColon (c :: r) = c :: r := by
  rw [removeLastColon]
  simp [h, hc]

/-- The code's split/join colon-drop does exactly what the spec says:
it removes the final colon. -/
theorem joinColon_frontParts_lastPart_eq (cs : List Char) :
    joinColon (frontParts (splitOnColon cs)) ++ lastPart (splitOnColon cs) =
      removeLastColon cs := by
  induction cs with
  | nil => rfl
  | cons c r ih =>
    by_cases hc : c = ':'
    · subst hc
      by_cases hmem : ':' ∈ r
      · rcases hsp : splitOnColon r with _ | ⟨g, gs⟩
        · exact absurd hsp (splitOnColon_ne_nil r)
        · have hgs : gs ≠ [] := by
            have := splitOnColon_two_le_of_mem r hmem
            rw [hsp] at this
            rcases gs with _ | _
            · simp at this
            · simp
          have hfront : frontParts (splitOnColon r) ≠ [] := by
            rw [hsp, frontParts_cons_of_ne g gs hgs]
            simp
          rw [splitOnColon_colon_cons, removeLastColon_cons_mem _ _ hmem,
            frontParts_cons_of_ne _ _ (splitOnColon_ne_nil r),
            lastPart_cons_of_ne _ _ (splitOnColon_ne_nil r), joinColon_cons,
            if_neg hfront]
          simp only [List.nil_append, List.cons_append]
          rw [ih]
      · rw [splitOnColon_colon_cons, removeLastColon_colon_not_mem _ hmem,
          splitOnColon_of_not_mem r hmem]
        simp [frontParts, lastPart, joinColon]
    · by_cases hmem : ':' ∈ r
      · rcases hsp : splitOnColon r with _ | ⟨g, gs⟩
        · exact absurd hsp (splitOnColon_ne_nil r)
        · have hgs : gs ≠ [] := by
            have := splitOnColon_two_le_of_mem r hmem
            rw [hsp] at this
            rcases gs with _ | _
            · simp at this
            · simp
          rw [splitOnColon_cons_ne c r hc, removeLastColon_cons_mem _ _ hmem, hsp]
          rw [hsp, frontParts_cons_of_ne _ _ hgs, lastPart_cons_of_ne _ _ hgs,
            joinColon_cons] at ih
          simp only [frontParts_cons_of_ne _ _ hgs, lastPart_cons_of_ne _ _ hgs,
            joinColon_cons]
          by_cases hfg : frontParts gs = []
          · simp only [hfg, if_pos rfl] at ih ⊢
            simpa using ih
          · simp only [if_neg hfg] at ih ⊢
            simpa using ih
      · rw [splitOnColon_cons_ne c r hc,
          removeLastColon_cons_not_mem c r hc hmem,
          splitOnColon_of_not_mem r hmem]
        simp [frontParts, lastPart, joinColon]

theorem dropLastColonJoin_eq_spec (s : String) :
    dropLastColonJoin s = specRemoveFinalColon s := by
  unfold dropLastColonJoin specRemoveFinalColon
  rw [joinColon_frontParts_lastPart_eq]

theorem alookup_pageParams_ne (tok : Option Int) (base : List (String × PVal))
    (k : String) (hk : k ≠ "page") :
    alookup (pageParams tok base) k = alookup base k := by
  rcases tok with _ | n
  · rfl
  · simp only [pageParams]
    by_cases hn : n ≠ 0
    · rw [if_pos hn]
      exact alookup_dictSet_ne base "page" k (PVal.int n) hk
    · rw [if_neg hn]

theorem alookup_orgParam_ne (context : Option (List (String × PVal)))
    (base : List (String × PVal)) (k : String) (hk : k ≠ "organization_id") :
    alookup (orgParam context base) k = alookup base k := by
  rcases context with _ | ctx
  · rfl
  · exact alookup_dictSet_ne base "organization_id" k _ hk

theorem lastModifiedParam_eq_spec (dt : PyDateTime) :
    lastModifiedParam dt = specCursorValue dt := by
  unfold lastModifiedParam specCursorValue
  rcases h : addOneSecond dt with _ | dt1
  · rfl
  · simp only [Option.map]
    rw [dropLastColonJoin_eq_spec]
    have harg :
        (if dt1.microsecond > 0 then { dt1 with microsecond := 0 } else dt1) =
        { dt1 with microsecond := 0 } := by
      by_cases h2 : dt1.microsecond > 0
      · rw [if_pos h2]
      · rw [if_neg h2]
        have h0 : dt1.microsecond = 0 := by omega
        cases dt1 with
        | mk y mo d hr mi s us off =>
          simp only at h0
          rw [h0]
    rw [harg]

/-! ## Enrichment-run invariants

Every entry of the ordered record map stores the record under the key
that is its own identifier value; the run therefore yields, in order,
one record per fetched detail record, carrying that detail's identifier. -/

theorem alookup_mem {K V : Type} [DecidableEq K] (m : List (K × V)) (k : K) (v : V)
    (h : alookup m k = some v) : (k, v) ∈ m := by
  induction m with
  | nil => simp [alookup] at h
  | cons p rest ih =>
    rcases p with ⟨pk, pv⟩
    simp only [alookup] at h
    by_cases hp : pk = k
    · rw [if_pos hp] at h
      injection h with h
      subst hp
      subst h
      simp
    · rw [if_neg hp] at h
      simp [ih h]

theorem MInv_dictSet (idKey : String) {m : List (Option Json × Record)}
    (hm : MInv idKey m) {k : Option Json} {r : Record}
    (hr : alookup r idKey = k) : MInv idKey (dictSet m k r) := by
  intro kr hkr
  unfold dictSet at hkr
  by_cases hk : hasKey m k = true
  · rw [if_pos hk] at hkr
    rcases List.mem_map.1 hkr with ⟨p, hp, hpe⟩
    by_cases hpk : p.1 = k
    · rw [if_pos hpk] at hpe
      subst hpe
      simpa using hr
    · rw [if_neg hpk] at hpe
      subst hpe
      exact hm p hp
  · rw [if_neg hk] at hkr
    rcases List.mem_append.1 hkr with h | h
    · exact hm _ h
    · simp only [List.mem_singleton] at h
      subst h
      simpa using hr

theorem MInv_recordIdsDict (idKey : String) (records : List Record) :
    MInv idKey (recordIdsDict idKey records) := by
  unfold recordIdsDict
  have main : ∀ (rs : List Record) (m : List (Option Json × Record)),
      MInv idKey m →
      MInv idKey (rs.foldl (fun m r => dictSet m (alookup r idKey) r) m) := by
    intro rs
    induction rs with
    | nil => intro m hm; exact hm
    | cons r rs ih =>
      intro m hm
      exact ih _ (MInv_dictSet idKey hm rfl)
  exact main records [] (by intro kr h; simp at h)

theorem runDetailBatch_spec (idKey : String) :
    ∀ (drs : List Record) (st st2 : List (Option Json × Record) × List Record),
      MInv idKey st.1 →
      runDetailBatch idKey st drs = .ok st2 →
      MInv idKey st2.1 ∧
        st2.2.map (fun r => alookup r idKey) =
          st.2.map (fun r => alookup r idKey) ++
            drs.map (fun r => alookup r idKey) := by
  intro drs
  induction drs with
  | nil =>
    intro st st2 hm h
    unfold runDetailBatch at h
    injection h with h
    subst h
    exact ⟨hm, by simp⟩
  | cons dr drs ih =>
    intro st st2 hm h
    unfold runDetailBatch at h
    rcases hstep : detailYieldStep idKey st dr with e | st'
    · simp only [hstep] at h
      cases h
    · simp only [hstep] at h
      unfold detailYieldStep at hstep
      rcases hdk : alookup dr idKey with _ | did
      · simp only [hdk] at hstep
        cases hstep
      · simp only [hdk] at hstep
        rcases hlk : alookup st.1 (some did) with _ | r
        · simp only [hlk] at hstep
          cases hstep
        · simp only [hlk] at hstep
          injection hstep with hstep
          have hrid : alookup r idKey = some did :=
            hm (some did, r) (alookup_mem st.1 (some did) r hlk)
          have hr2id : alookup (enrich r dr) idKey = some did := by
            rw [enrich_lookup_of_hasKey r dr idKey
              ((hasKey_iff_alookup_isSome r idKey).2 (by simp [hrid]))]
            exact hrid
          have hm' : MInv idKey st'.1 := by
            rw [← hstep]
            exact MInv_dictSet idKey hm hr2id
          obtain ⟨h1, h2⟩ := ih st' st2 hm' h
          refine ⟨h1, ?_⟩
          rw [h2, ← hstep]
          simp [hdk, hr2id]

theorem runDetailChunks_spec (idKey : String)
    (fetch : List (Option Json) → List Record) :
    ∀ (cs : List (List (Option Json)))
      (st st2 : List (Option Json × Record) × List Record),
      MInv idKey st.1 →
      runDetailChunks idKey fetch st cs = .ok st2 →
      st2.2.map (fun r => alookup r idKey) =
        st.2.map (fun r => alookup r idKey) ++
          (cs.map fetch).flatten.map (fun r => alookup r idKey) := by
  intro cs
  induction cs with
  | nil =>
    intro st st2 hm h
    unfold runDetailChunks at h
    injection h with h
    subst h
    simp
  | cons c cs ih =>
    intro st st2 hm h
    unfold runDetailChunks at h
    rcases hb : runDetailBatch idKey st (fetch c) with e | st'
    · simp only [hb] at h
      cases h
    · simp only [hb] at h
      obtain ⟨h1, h2⟩ := runDetailBatch_spec idKey (fetch c) st st' hm hb
      rw [ih st' st2 h1 h, h2]
      simp

/-! ## Claim theorems -/

/-- Claim C10: a 200 response with an empty body text parses to an
empty record sequence (the guard short-circuits); without the guard the
body would be a JSON-decoding error, since `json.loads ""` fails. -/
theorem claim_C10_empty_body :
    parse_response 200 "" = .ok [] ∧ json_loads "" = none :=
  ⟨rfl, rfl⟩

set_option maxRecDepth 4000 in
/-- Claim C7: `_divide_chunks` with limit 100 partitions any identifier
list into consecutive batches of at most 100 whose concatenation is the
input (each identifier covered exactly once, order preserved); a
250-element input yields batch sizes [100, 100, 50]. -/
theorem claim_C7_divide_chunks :
    (∀ (l : List String),
      (_divide_chunks l 100).flatten = l ∧
      ∀ c ∈ _divide_chunks l 100, c.length ≤ 100) ∧
    (_divide_chunks (List.range 250) 100).map List.length = [100, 100, 50] := by
  constructor
  · intro l
    exact ⟨chunksGo_flatten 100 (by omega) l.length l le_rfl,
      fun c hc => chunksGo_length_le l.length l 100 c hc⟩
  · rfl

theorem claim_C7_witness :
    (_divide_chunks ["a", "b", "c"] 100).flatten = ["a", "b", "c"] ∧
    (["a", "b", "c"] : List String).length ≤ 100 := by
  refine ⟨(claim_C7_divide_chunks.1 ["a", "b", "c"]).1, ?_⟩
  exact (claim_C7_divide_chunks.1 ["a", "b", "c"]).2 ["a", "b", "c"] (by decide)

/-- Claim C6: the detail-enrichment merge never overwrites a field
already present in the primary record: every key of the primary keeps
the primary's value, and every detail key absent from the primary gets
the detail's value. -/
theorem claim_C6_enrich_no_overwrite (p d : Record) (k : String) :
    (hasKey p k = true → alookup (enrich p d) k = alookup p k) ∧
    (hasKey p k = false → hasKey d k = true →
      alookup (enrich p d) k = alookup d k) :=
  ⟨enrich_lookup_of_hasKey p d k, enrich_lookup_of_not_hasKey p d k⟩

theorem claim_C6_witness :
    alookup (enrich [("item_id", Json.str "1"), ("name", Json.str "A")]
        [("item_id", Json.str "1"), ("name", Json.str "B"), ("sku", Json.str "X")])
      "name" = some (Json.str "A") ∧
    alookup (enrich [("item_id", Json.str "1"), ("name", Json.str "A")]
        [("item_id", Json.str "1"), ("name", Json.str "B"), ("sku", Json.str "X")])
      "sku" = some (Json.str "X") ∧
    enrich [("item_id", Json.str "1"), ("name", Json.str "A")]
        [("item_id", Json.str "1"), ("name", Json.str "B"), ("sku", Json.str "X")] =
      [("item_id", Json.str "1"), ("name", Json.str "A"), ("sku", Json.str "X")] := by
  refine ⟨?_, ?_, rfl⟩
  · exact ((claim_C6_enrich_no_overwrite _ _ "name").1 (by rfl)).trans rfl
  · exact ((claim_C6_enrich_no_overwrite _ _ "sku").2 (by rfl) (by rfl)).trans rfl

/-- Claim C9: over any run of responses the near-exhaustion warning
fires at most once; with the flag already set no warning ever fires and
the flag stays set; and the warning fires exactly at the first response
whose headers satisfy the alert condition. -/
theorem claim_C9_alert_once (rs : List (Option Int × Option Int)) :
    (warningsFrom false rs).count true ≤ 1 ∧
    warningsFrom true rs = List.replicate rs.length false ∧
    alertedAfter true rs = true ∧
    ∀ i, i < rs.length →
      ((warningsFrom false rs).getD i false = true ↔
        (alertCond (rs.getD i (none, none)) = true ∧
         ∀ j, j < i → alertCond (rs.getD j (none, none)) = false)) :=
  ⟨warningsFrom_count_le_one rs, warningsFrom_true rs, alertedAfter_true rs,
    fun i hi => warningsFrom_getD rs i hi⟩

theorem claim_C9_witness :
    (warningsFrom false
      [(some 1000, some 900), (some 1000, some 700)]).getD 0 false = true := by
  refine ((claim_C9_alert_once
    [(some 1000, some 900), (some 1000, some 700)]).2.2.2 0 (by decide)).2 ?_
  exact ⟨by decide, fun j hj => absurd hj (by omega)⟩

/-- Claim C2 counterexample: a pagination block with `has_more_page`
true but no `page` key yields next token 2 (pagination continues with
the defaulted page 1 + 1), not termination. -/
theorem claim_C2_counterexample :
    get_next (.obj [("page_context", .obj [("has_more_page", .bool true)])]) =
      .ok (some 2) := rfl

/-- Claim C2 (amended): for a dict-shaped body whose pagination block is
a dict (or absent, defaulting to empty), with a numeric `page` value (or
absent, defaulting to 1): when `has_more_page` is truthy the next token
is that page value plus 1, otherwise (also when `has_more_page` or the
whole block is absent) pagination terminates; key absence is never an
error. -/
theorem claim_C2_paginator (fs pfs : List (String × Json)) (n : Int)
    (hpc : (alookup fs "page_context").getD (.obj []) = .obj pfs)
    (hpg : (alookup pfs "page").getD (.num 1) = .num n) :
    get_next (.obj fs) =
      .ok (if truthy ((alookup pfs "has_more_page").getD (.bool false))
           then some (n + 1) else none) := by
  have h1 : has_more (.obj fs) =
      .ok ((alookup pfs "has_more_page").getD (.bool false)) := by
    unfold has_more jsonGetD
    simp only [bind, Except.bind, hpc]
  unfold get_next
  simp only [bind, Except.bind, h1, jsonGetD, hpc, hpg]
  by_cases ht : truthy ((alookup pfs "has_more_page").getD (.bool false)) = true
  · rw [if_pos ht, if_pos ht]
    rfl
  · rw [if_neg ht, if_neg ht]
    rfl

theorem claim_C2_witness :
    get_next (.obj [("page_context",
      .obj [("has_more_page", .bool true), ("page", .num 7)])]) = .ok (some 8) := by
  have h := claim_C2_paginator
    [("page_context", .obj [("has_more_page", .bool true), ("page", .num 7)])]
    [("has_more_page", .bool true), ("page", .num 7)] 7 rfl rfl
  exact h.trans (by rfl)

/-- Claim C4 counterexample: a 200 response with a valid JSON body and
`X-Rate-Limit-Remaining: 0` triggers the sleep but then classifies as
success — its records are processed and the request is not re-issued. -/
theorem claim_C4_counterexample :
    validate_response [] "items" (some 0) 200 "\x7b\x7d" =
      { sleptUntilNextDay := true, pacedOneSecond := false,
        verdict := .success } := rfl

/-- Claim C4 (amended): a response whose `X-Rate-Limit-Remaining`
header is ≤ 0 triggers the sleep-until-next-day suspension (whose
duration lands exactly one second past the next midnight); afterwards
the same response continues through the ordinary status classification,
unchanged by the quota branch — it is re-issued only when that
classification is retriable (counted against the retry budget), and a
successful response is processed without re-issue. -/
theorem claim_C4_quota_sleep (extra : List Nat) (name : String) (r : Int)
    (status : Nat) (body : String) (hr : r ≤ 0) :
    (validate_response extra name (some r) status body).sleptUntilNextDay = true ∧
    (validate_response extra name (some r) status body).verdict =
      (validate_response extra name none status body).verdict ∧
    ∀ tod : Nat, (tod : Int) + sleep_until_next_day_micros tod =
      86400000000 + 1000000 := by
  refine ⟨?_, rfl, ?_⟩
  · simp [validate_response, hr]
  · intro tod
    unfold sleep_until_next_day_micros
    ring

theorem claim_C4_witness :
    (validate_response [429] "items" (some 0) 503 "x").sleptUntilNextDay = true ∧
    (validate_response [429] "items" (some 0) 503 "x").verdict =
      (validate_response [429] "items" none 503 "x").verdict := by
  have h := claim_C4_quota_sleep [429] "items" 0 503 "x" (by omega)
  exact ⟨h.1, h.2.1⟩

/-- Claim C5: `validate_response` raises a retriable error exactly for a
status in the extra-retriable set, or in 500-599, or exactly 400, or a
status-200 response whose body is not syntactically valid JSON; it
raises a fatal error exactly for 400 < status < 500 outside the
extra-retriable set; otherwise it reports success. -/
theorem claim_C5_response_classification (extra : List Nat) (name : String)
    (remaining : Option Int) (status : Nat) (body : String) :
    ((validate_response extra name remaining status body).verdict = .retriable ↔
      (status ∈ extra ∨ (500 ≤ status ∧ status ≤ 599) ∨ status = 400 ∨
        (status = 200 ∧ ¬ is_valid_json body = true))) ∧
    ((validate_response extra name remaining status body).verdict = .fatal ↔
      (400 < status ∧ status < 500 ∧ status ∉ extra)) ∧
    ((validate_response extra name remaining status body).verdict = .success ↔
      (¬(status ∈ extra ∨ (500 ≤ status ∧ status ≤ 599) ∨ status = 400 ∨
          (status = 200 ∧ ¬ is_valid_json body = true)) ∧
       ¬(400 < status ∧ status < 500 ∧ status ∉ extra))) := by
  unfold validate_response
  simp only
  split_ifs with h1 h2 h3
  · refine ⟨?_, ?_, ?_⟩
    · constructor
      · intro _
        rcases h1 with h | h | h
        · exact Or.inl h
        · exact Or.inr (Or.inl ⟨h.1, by omega⟩)
        · exact Or.inr (Or.inr (Or.inl h))
      · intro _
        rfl
    · constructor
      · intro hcontra
        cases hcontra
      · rintro ⟨ha, hb, hc⟩
        exfalso
        rcases h1 with h | h | h
        · exact hc h
        · omega
        · omega
    · constructor
      · intro hcontra
        cases hcontra
      · rintro ⟨ha, _⟩
        exfalso
        apply ha
        rcases h1 with h | h | h
        · exact Or.inl h
        · exact Or.inr (Or.inl ⟨h.1, by omega⟩)
        · exact Or.inr (Or.inr (Or.inl h))
  · refine ⟨?_, ?_, ?_⟩
    · constructor
      · intro hcontra
        cases hcontra
      · intro hrhs
        exfalso
        rcases hrhs with h | h | h | h
        · exact h1 (Or.inl h)
        · omega
        · exact h1 (Or.inr (Or.inr h))
        · omega
    · constructor
      · intro _
        exact ⟨h2.1, h2.2, fun hmem => h1 (Or.inl hmem)⟩
      · intro _
        rfl
    · constructor
      · intro hcontra
        cases hcontra
      · rintro ⟨_, hnb⟩
        exact absurd ⟨h2.1, h2.2, fun hmem => h1 (Or.inl hmem)⟩ hnb
  · refine ⟨?_, ?_, ?_⟩
    · constructor
      · intro _
        exact Or.inr (Or.inr (Or.inr h3))
      · intro _
        rfl
    · constructor
      · intro hcontra
        cases hcontra
      · rintro ⟨ha, hb, _⟩
        omega
    · constructor
      · intro hcontra
        cases hcontra
      · rintro ⟨hna, _⟩
        exact absurd (Or.inr (Or.inr (Or.inr h3))) hna
  · refine ⟨?_, ?_, ?_⟩
    · constructor
      · intro hcontra
        cases hcontra
      · intro hrhs
        exfalso
        rcases hrhs with h | h | h | h
        · exact h1 (Or.inl h)
        · exact h1 (Or.inr (Or.inl ⟨h.1, by omega⟩))
        · exact h1 (Or.inr (Or.inr h))
        · exact h3 h
    · constructor
      · intro hcontra
        cases hcontra
      · rintro ⟨ha, hb, _⟩
        exact h2 ⟨ha, hb⟩
    · constructor
      · intro _
        refine ⟨?_, ?_⟩
        · intro hrhs
          rcases hrhs with h | h | h | h
          · exact h1 (Or.inl h)
          · exact h1 (Or.inr (Or.inl ⟨h.1, by omega⟩))
          · exact h1 (Or.inr (Or.inr h))
          · exact h3 h
        · rintro ⟨ha, hb, _⟩
          exact h2 ⟨ha, hb⟩
      · intro _
        rfl

/-- Claim C3 counterexample: with two primary records (ids "1", "2")
and a detail response returning only id "2", the run succeeds but
yields only the id-"2" record — the id-"1" primary record is dropped,
not yielded un-enriched. -/
theorem claim_C3_counterexample :
    parse_response_enriched "item_id"
        (fun _ => [[("item_id", Json.str "2"), ("sku", Json.str "X")]])
        [[("item_id", Json.str "1"), ("name", Json.str "A")],
         [("item_id", Json.str "2")]] =
      .ok [[("item_id", Json.str "2"), ("sku", Json.str "X")]] ∧
    [("item_id", Json.str "1"), ("name", Json.str "A")] ∉
      ([[("item_id", Json.str "2"), ("sku", Json.str "X")]] : List Record) :=
  ⟨rfl, by decide⟩

/-- Claim C3 (amended): when enrichment is enabled, a successful
`parse_response` run yields exactly one record per detail record the
detail endpoint returns, in detail-response order, each carrying that
detail record's identifier value; consequently a primary record whose
identifier appears in no detail response is dropped (never yielded),
while the run itself does not fail. -/
theorem claim_C3_enrichment_yield (idKey : String)
    (fetch : List (Option Json) → List Record) (records : List Record)
    (out : List Record)
    (h : parse_response_enriched idKey fetch records = .ok out) :
    out.map (fun r => alookup r idKey) =
      ((_divide_chunks ((recordIdsDict idKey records).map Prod.fst) 100).map
        fetch).flatten.map (fun r => alookup r idKey) ∧
    ∀ y ∈ out,
      ∃ c ∈ _divide_chunks ((recordIdsDict idKey records).map Prod.fst) 100,
        ∃ dr ∈ fetch c, alookup y idKey = alookup dr idKey := by
  unfold parse_response_enriched at h
  rcases hrun : runDetailChunks idKey fetch (recordIdsDict idKey records, [])
      (_divide_chunks ((recordIdsDict idKey records).map Prod.fst) 100)
    with e | st
  · simp only [hrun, Except.map] at h
    cases h
  · simp only [hrun, Except.map] at h
    injection h with h
    subst h
    have hmain := runDetailChunks_spec idKey fetch
      (_divide_chunks ((recordIdsDict idKey records).map Prod.fst) 100)
      (recordIdsDict idKey records, []) st
      (MInv_recordIdsDict idKey records) hrun
    simp only [List.map_nil, List.nil_append] at hmain
    refine ⟨hmain, ?_⟩
    intro y hy
    have hidy : alookup y idKey ∈
        ((_divide_chunks ((recordIdsDict idKey records).map Prod.fst) 100).map
          fetch).flatten.map (fun r => alookup r idKey) := by
      rw [← hmain]
      exact List.mem_map.2 ⟨y, hy, rfl⟩
    rcases List.mem_map.1 hidy with ⟨dr, hdr, hde⟩
    rcases List.mem_flatten.1 hdr with ⟨l, hl, hdrl⟩
    rcases List.mem_map.1 hl with ⟨c, hc, hce⟩
    exact ⟨c, hc, dr, hce ▸ hdrl, hde.symm⟩

theorem claim_C3_witness :
    parse_response_enriched "item_id"
        (fun _ => [[("item_id", Json.str "1"), ("sku", Json.str "S")],
                   [("item_id", Json.str "2"), ("sku", Json.str "T")]])
        [[("item_id", Json.str "1"), ("name", Json.str "A")],
         [("item_id", Json.str "2")]] =
      .ok [[("item_id", Json.str "1"), ("name", Json.str "A"), ("sku", Json.str "S")],
           [("item_id", Json.str "2"), ("sku", Json.str "T")]] ∧
    ([[("item_id", Json.str "1"), ("name", Json.str "A"), ("sku", Json.str "S")],
      [("item_id", Json.str "2"), ("sku", Json.str "T")]] : List Record).map
        (fun r => alookup r "item_id") =
      [some (Json.str "1"), some (Json.str "2")] := by
  refine ⟨rfl, ?_⟩
  have h := (claim_C3_enrichment_yield "item_id"
    (fun _ => [[("item_id", Json.str "1"), ("sku", Json.str "S")],
               [("item_id", Json.str "2"), ("sku", Json.str "T")]])
    [[("item_id", Json.str "1"), ("name", Json.str "A")],
     [("item_id", Json.str "2")]]
    [[("item_id", Json.str "1"), ("name", Json.str "A"), ("sku", Json.str "S")],
     [("item_id", Json.str "2"), ("sku", Json.str "T")]] rfl).1
  exact h.trans (by rfl)

/-- Claim C1 counterexample: the stream `profit_and_loss` resolves a
non-null starting value that parses under the accepted layouts, yet its
outbound query carries no `last_modified_time` parameter at all (the
report branch rebuilds the params dict). -/
theorem claim_C1_counterexample :
    get_starting_time none { start_date := some "2023-01-01T00:00:00Z" } =
      some "2023-01-01T00:00:00Z" ∧
    (_infer_date "2023-01-01T00:00:00Z").isSome = true ∧
    (get_url_params "profit_and_loss" { start_date := some "2023-01-01T00:00:00Z" }
        none none none { year := 2026, month := 10, day := 12 }).map
      (fun ps => alookup ps "last_modified_time") = .ok none :=
  ⟨rfl, rfl, rfl⟩

/-- Claim C1 (amended): for every stream other than the four
report-style streams, when the resolved starting value (bookmark, else
configured start date) is non-null, parses under one of the six
layouts, and adding one second does not overflow `datetime.max`,
`get_url_params` succeeds and sets `last_modified_time` to exactly the
parsed datetime plus one second, sub-second precision truncated to
zero, rendered via isoformat with its final colon removed (at the
`datetime.max` boundary the addition raises instead). -/
theorem claim_C1_cursor_format (name : String) (cfg : StreamConfig)
    (bookmark : Option String) (context : Option (List (String × PVal)))
    (tok : Option Int) (today : PyDateTime) (s : String) (dt dt1 : PyDateTime)
    (hname : name ∉ reportStreamNames)
    (hstart : get_starting_time bookmark cfg = some s)
    (hparse : _infer_date s = some dt)
    (hadd : addOneSecond dt = some dt1) :
    ∃ ps v, get_url_params name cfg bookmark context tok today = .ok ps ∧
      specCursorValue dt = some v ∧
      alookup ps "last_modified_time" = some (.str v) := by
  have hlm : ∃ v, lastModifiedParam dt = some v := by
    unfold lastModifiedParam
    rw [hadd]
    exact ⟨_, rfl⟩
  rcases hlm with ⟨v, hv⟩
  unfold get_url_params
  simp only [hstart, hparse, hv]
  rw [if_neg hname]
  refine ⟨_, v, rfl, ?_, ?_⟩
  · rw [← lastModifiedParam_eq_spec]
    exact hv
  · rw [alookup_dictSet_self]

theorem claim_C1_witness :
    ∃ ps, get_url_params "items" { start_date := some "2023-01-01T00:00:00Z" }
        none none none { year := 2026, month := 10, day := 12 } = .ok ps ∧
      alookup ps "last_modified_time" =
        some (.str "2023-01-01T00:00:01+0000") := by
  obtain ⟨ps, v, h1, h2, h3⟩ := claim_C1_cursor_format "items"
    { start_date := some "2023-01-01T00:00:00Z" } none none none
    { year := 2026, month := 10, day := 12 } "2023-01-01T00:00:00Z"
    { year := 2023, month := 1, day := 1, utcoffsetSeconds := some 0 }
    { year := 2023, month := 1, day := 1, second := 1, utcoffsetSeconds := some 0 }
    (by decide) rfl rfl rfl
  have h4 : some v = some "2023-01-01T00:00:01+0000" := h2.symm.trans (by rfl)
  injection h4 with h4
  exact ⟨ps, h1, h4 ▸ h3⟩

/-- Claim C8: for the four report-style streams, a successful
`get_url_params` call carries no `last_modified_time` parameter;
`from_date` is the date portion of the parsed reports start (the
configured reports start date, else the standard starting value);
`to_date` is the last calendar day of the current month; and the
`cash_based` flag is present exactly for the two cash-based variants. -/
theorem claim_C8_report_params (name : String) (cfg : StreamConfig)
    (bookmark : Option String) (context : Option (List (String × PVal)))
    (tok : Option Int) (today : PyDateTime) (s : String) (dt : PyDateTime)
    (ps : List (String × PVal))
    (hname : name ∈ reportStreamNames)
    (hstart : pyOrStr cfg.reports_start_date (get_starting_time bookmark cfg) =
      some s)
    (hparse : _infer_date s = some dt)
    (hrun : get_url_params name cfg bookmark context tok today = .ok ps) :
    alookup ps "last_modified_time" = none ∧
    alookup ps "from_date" = some (.str (strftimeYMD dt)) ∧
    alookup ps "to_date" =
      some (.str (strftimeYMD
        { today with day := daysInMonth today.year today.month })) ∧
    (alookup ps "cash_based" = some (.bool true) ↔
      name ∈ cashBasedStreamNames) := by
  have hp2 : ∀ k : String, k ≠ "page" → k ≠ "organization_id" →
      alookup (orgParam context (pageParams tok [])) k = none := by
    intro k hk1 hk2
    rw [alookup_orgParam_ne context _ k hk2, alookup_pageParams_ne tok _ k hk1]
    rfl
  unfold get_url_params at hrun
  rcases hst : get_starting_time bookmark cfg with _ | s0
  · rw [hst] at hstart
    simp only [hst] at hrun
    rw [if_pos hname] at hrun
    simp only [hstart, hparse] at hrun
    by_cases hcash : name ∈ cashBasedStreamNames
    · rw [if_pos hcash] at hrun
      injection hrun with hrun
      subst hrun
      refine ⟨?_, ?_, ?_, ?_⟩
      · rw [alookup_dictSet_ne _ _ _ _ (by decide),
          alookup_dictSet_ne _ _ _ _ (by decide),
          alookup_dictSet_ne _ _ _ _ (by decide)]
        exact hp2 _ (by decide) (by decide)
      · rw [alookup_dictSet_ne _ _ _ _ (by decide),
          alookup_dictSet_ne _ _ _ _ (by decide), alookup_dictSet_self]
      · rw [alookup_dictSet_ne _ _ _ _ (by decide), alookup_dictSet_self]
      · rw [alookup_dictSet_self]
        simp [hcash]
    · rw [if_neg hcash] at hrun
      injection hrun with hrun
      subst hrun
      refine ⟨?_, ?_, ?_, ?_⟩
      · rw [alookup_dictSet_ne _ _ _ _ (by decide),
          alookup_dictSet_ne _ _ _ _ (by decide)]
        exact hp2 _ (by decide) (by decide)
      · rw [alookup_dictSet_ne _ _ _ _ (by decide), alookup_dictSet_self]
      · rw [alookup_dictSet_self]
      · rw [alookup_dictSet_ne _ _ _ _ (by decide), alookup_dictSet_ne _ _ _ _
          (by decide)]
        rw [hp2 _ (by decide) (by decide)]
        simp [hcash]
  · rw [hst] at hstart
    rcases hp0 : _infer_date s0 with _ | dt0
    · simp only [hst, hp0] at hrun
      cases hrun
    · rcases hlm : lastModifiedParam dt0 with _ | v0
      · simp only [hst, hp0, hlm] at hrun
        cases hrun
      · simp only [hst, hp0, hlm] at hrun
        rw [if_pos hname] at hrun
        simp only [hstart, hparse] at hrun
        by_cases hcash : name ∈ cashBasedStreamNames
        · rw [if_pos hcash] at hrun
          injection hrun with hrun
          subst hrun
          refine ⟨?_, ?_, ?_, ?_⟩
          · rw [alookup_dictSet_ne _ _ _ _ (by decide),
              alookup_dictSet_ne _ _ _ _ (by decide),
              alookup_dictSet_ne _ _ _ _ (by decide)]
            exact hp2 _ (by decide) (by decide)
          · rw [alookup_dictSet_ne _ _ _ _ (by decide),
              alookup_dictSet_ne _ _ _ _ (by decide), alookup_dictSet_self]
          · rw [alookup_dictSet_ne _ _ _ _ (by decide), alookup_dictSet_self]
          · rw [alookup_dictSet_self]
            simp [hcash]
        · rw [if_neg hcash] at hrun
          injection hrun with hrun
          subst hrun
          refine ⟨?_, ?_, ?_, ?_⟩
          · rw [alookup_dictSet_ne _ _ _ _ (by decide),
              alookup_dictSet_ne _ _ _ _ (by decide)]
            exact hp2 _ (by decide) (by decide)
          · rw [alookup_dictSet_ne _ _ _ _ (by decide), alookup_dictSet_self]
          · rw [alookup_dictSet_self]
          · rw [alookup_dictSet_ne _ _ _ _ (by decide), alookup_dictSet_ne _ _ _ _
              (by decide)]
            rw [hp2 _ (by decide) (by decide)]
            simp [hcash]

theorem claim_C8_witness :
    alookup
      [("organization_id", PVal.str "111"),
       ("from_date", PVal.str "2024-03-05"),
       ("to_date", PVal.str "2026-10-31"),
       ("cash_based", PVal.bool true)] "last_modified_time" = none ∧
    alookup
      [("organization_id", PVal.str "111"),
       ("from_date", PVal.str "2024-03-05"),
       ("to_date", PVal.str "2026-10-31"),
       ("cash_based", PVal.bool true)] "from_date" = some (PVal.str "2024-03-05") := by
  have h := claim_C8_report_params "profit_and_loss_cash_based"
    { start_date := some "2023-01-01T00:00:00Z",
      reports_start_date := some "2024-03-05" }
    none (some [("organization_id", PVal.str "111")]) none
    { year := 2026, month := 10, day := 12 } "2024-03-05"
    { year := 2024, month := 3, day := 5 }
    [("organization_id", PVal.str "111"),
     ("from_date", PVal.str "2024-03-05"),
     ("to_date", PVal.str "2026-10-31"),
     ("cash_based", PVal.bool true)]
    (by decide) rfl rfl rfl
  exact ⟨h.1, h.2.1.trans (by rfl)⟩

end TapZohoBooks

